import Mathlib

/-!
Verification development for `tmc.py`, a query engine for the TMC REST API.

The Python source is shallowly embedded: each Lean definition below mirrors a
function (or a delimited block) of `src/tmc.py`; line numbers in the doc
comments refer to that file.  JSON values are an explicit sum type, the
on-disk TTL cache is a map from names to entries, HTTP traffic is a
function from requests to responses supplied as a parameter, and Python's
`str(...)` on ints / `None` is an executable decimal printer.
-/

/-- JSON-like values, the untyped data the engine moves around
(`json.loads` output in the source). Python `None` is `null`. -/
inductive JSON where
  | null
  | bool (b : Bool)
  | num (n : Int)
  | str (s : String)
  | arr (xs : List JSON)
  | obj (fields : List (String × JSON))

/-- Decimal digit to character, as Python's `str` prints it.
Only ever applied to values `< 10`. -/
def digitChar (d : Nat) : Char :=
  match d with
  | 0 => '0' | 1 => '1' | 2 => '2' | 3 => '3' | 4 => '4'
  | 5 => '5' | 6 => '6' | 7 => '7' | 8 => '8' | _ => '9'

/-- Decimal digits of `n`, most significant first; structural fuel makes the
definition kernel-reducible.  `fuel = n + 1` always suffices, since `n / 10`
strictly decreases below the fuel. -/
def decChars (fuel : Nat) (n : Nat) : List Char :=
  match fuel with
  | 0 => []
  | fuel + 1 =>
    if n < 10 then [digitChar n]
    else decChars fuel (n / 10) ++ [digitChar (n % 10)]

/-- Python `str(n)` for a natural number. -/
def pyStrNat (n : Nat) : String := ⟨decChars (n + 1) n⟩

/-- Python `str(i)` for an int (negative ints print with a leading minus). -/
def pyStrInt : Int → String
  | .ofNat m => pyStrNat m
  | .negSucc m => "-" ++ pyStrNat (m + 1)

/-- Python `str(x)` for `x = _data.get('totalCount')` (src line 210): an
absent key gives `None`, printed `"None"`; a present integer count prints
in decimal. -/
def pyStrOptInt : Option Int → String
  | none => "None"
  | some i => pyStrInt i

/-- Python truthiness-based default: `x or d` yields `d` when `x` is `None`
or `0` (both falsy), else `x`.  Mirrors `expire_secs or 60` (src line 116). -/
def pyOrDefault (v : Option Int) (dflt : Int) : Int :=
  match v with
  | none => dflt
  | some x => if x = 0 then dflt else x

/-- Python slice `xs[0:l]`: a nonnegative `l` keeps the first `l` elements,
a negative `l` drops the last `-l` (clamped at nothing).  Mirrors
`data[0:limit]` (src line 213). -/
def pySlice (l : Int) (xs : List JSON) : List JSON :=
  xs.take (if 0 ≤ l then l.toNat else ((xs.length : Int) + l).toNat)

/-- One on-disk cache document: `{expires: unixSeconds, data: value}`
(src lines 114-118). -/
structure CacheEntry where
  expires : Int
  data : JSON

/-- The cache directory: one optional entry per logical name. -/
def Store : Type := String → Option CacheEntry

/-- Overwrite (or create) the entry for one name, as `write_file` on the
name's cache file does. -/
def setStore (st : Store) (name : String) (e : CacheEntry) : Store :=
  fun k => if k = name then some e else st k

/-- Embedding of `get_cache(name)` (src lines 102-111): if the cache file
exists and `now < expires`, return the stored data, else `None`. -/
def get_cache (st : Store) (name : String) (now : Int) : Option JSON :=
  match st name with
  | some d => if now < d.expires then some d.data else none
  | none => none

/-- Embedding of `get_cache(name, raw=True)` (src lines 102-108): the raw
document, ignoring expiry, if the file exists. -/
def get_cache_raw (st : Store) (name : String) : Option CacheEntry :=
  st name

/-- Embedding of `write_cache(name, data, expire_secs)` (src lines 114-118):
persist `{expires: now + (expire_secs or 60), data}` under the name. -/
def write_cache (st : Store) (name : String) (data : JSON)
    (expire_secs : Option Int) (now : Int) : Store :=
  setStore st name ⟨now + pyOrDefault expire_secs 60, data⟩

/- ### Helper lemmas: the decimal printer is injective and never "None" -/

/-- Numeric value of a digit character. -/
def charVal (c : Char) : Nat := c.toNat - 48

/-- Numeric value of a most-significant-first digit string. -/
def decVal (cs : List Char) : Nat := cs.foldl (fun a c => a * 10 + charVal c) 0

theorem charVal_digitChar (d : Nat) (h : d < 10) : charVal (digitChar d) = d := by
  interval_cases d <;> rfl

theorem decVal_append (cs : List Char) (c : Char) :
    decVal (cs ++ [c]) = decVal cs * 10 + charVal c := by
  simp [decVal, List.foldl_append]

theorem decVal_decChars : ∀ fuel n, n < fuel → decVal (decChars fuel n) = n := by
  intro fuel
  induction fuel with
  | zero => intro n h; omega
  | succ f ih =>
    intro n h
    by_cases h10 : n < 10
    · simp [decChars, h10, decVal, charVal_digitChar n h10]
    · have hdiv : n / 10 < f := by omega
      simp only [decChars, if_neg h10]
      rw [decVal_append, ih (n / 10) hdiv, charVal_digitChar (n % 10) (Nat.mod_lt n (by omega))]
      omega

theorem pyStrNat_inj {a b : Nat} (h : pyStrNat a = pyStrNat b) : a = b := by
  simp only [pyStrNat] at h
  have hl : decChars (a + 1) a = decChars (b + 1) b := by injection h
  have ha := decVal_decChars (a + 1) a (Nat.lt_succ_self a)
  have hb := decVal_decChars (b + 1) b (Nat.lt_succ_self b)
  rw [hl] at ha
  omega

theorem pyStrNat_ne_none (n : Nat) : pyStrNat n ≠ "None" := by
  intro h
  simp only [pyStrNat] at h
  have hl : decChars (n + 1) n = "None".data := congrArg String.data h
  have hv := decVal_decChars (n + 1) n (Nat.lt_succ_self n)
  rw [hl] at hv
  have : decVal "None".data = 36973 := by decide
  rw [this] at hv
  subst hv
  exact absurd hl (by decide)

/- ### Credential manager (src lines 159-175) -/

/-- The identity provider's reply to the refresh-token exchange POST:
its HTTP status and, on success, the fields `access_token` and
`expires_in` of its JSON body. -/
structure TokenExchangeResp where
  status : Nat
  access_token : String
  expires_in : Int

/-- Embedding of the access-token block of `api` (src lines 159-175):
read the cache entry named "token" unless caching is bypassed; on a miss
perform the exchange, failing fatally on a non-200 status; on success use
the body's access token and, unless bypassed, cache it with the body's
`expires_in` as the TTL (via `write_cache`). -/
def acquireToken (noCache : Bool) (st : Store) (now : Int)
    (resp : TokenExchangeResp) : Except String (JSON × Store) :=
  let cached : Option JSON := if noCache then none else get_cache st "token" now
  match cached with
  | some tok => .ok (tok, st)
  | none =>
    if resp.status ≠ 200 then
      .error ("unable to get access_token HTTP " ++ pyStrNat resp.status)
    else
      let tok := JSON.str resp.access_token
      .ok (tok, if noCache then st else write_cache st "token" tok (some resp.expires_in) now)

/- ### Paginated query executor (src lines 135-225) -/

/-- The `pagination.size` / `pagination.offset` query parameters.  The first
request of a run carries no offset (the offset key is only added to the
params dict after a page, src line 215). -/
structure PaginationParams where
  size : Int
  offsetParam : Option Nat

/-- One HTTP request as the executor issues it; `params` is present exactly
on paginated requests (src lines 187-190). -/
structure Request where
  params : Option PaginationParams

/-- The part of an HTTP response the executor inspects: the status code,
the decoded JSON body (`raw`, used as the whole result when not
paginating), and the two reads the pagination loop performs on the body:
the paginate field's sequence when present (`_data[paginate]`) and
`_data.get('totalCount')`. -/
structure Page where
  status : Nat
  raw : JSON
  items : Option (List JSON)
  totalCount : Option Int

/-- Result of the per-page block at src lines 206-216: either leave the
loop with the accumulated sequence, or issue another request at the given
offset. -/
inductive StepResult where
  | stop (data : List JSON)
  | next (data : List JSON) (offset : Nat)

/-- Embedding of the pagination block run after each page (src lines
206-216): break if the named field is absent or empty; extend the
accumulated data; break if `str(len(data)) == str(_data.get('totalCount'))`;
break (truncating) if a limit is set and reached; otherwise continue with
`pagination.offset = len(data)`. -/
def pageStep (limit : Option Int) (data : List JSON) (pg : Page) : StepResult :=
  match pg.items with
  | none => .stop data
  | some items =>
    if items.length = 0 then .stop data
    else
      let data' := data ++ items
      if pyStrNat data'.length = pyStrOptInt pg.totalCount then .stop data'
      else
        match limit with
        | some l =>
          if l ≤ (data'.length : Int) then .stop (pySlice l data')
          else .next data' data'.length
        | none => .next data' data'.length

/-- Outcome of the request loop: the assembled sequence together with the
log of issued requests, a fatal disallowed status, or fuel exhaustion
(the Python loop has no fuel; enough fuel makes the embedding agree). -/
inductive LoopResult where
  | ok (data : List JSON) (log : List Request)
  | fatal (status : Nat)
  | outOfFuel

/-- Length of the assembled sequence, when the loop succeeded. -/
def LoopResult.len : LoopResult → Option Nat
  | .ok d _ => some d.length
  | _ => none

/-- Number of issued requests, when the loop succeeded. -/
def LoopResult.reqs : LoopResult → Option Nat
  | .ok _ log => some log.length
  | _ => none

/-- Embedding of the `while True` request loop in the paginated case
(src lines 186-219): each iteration sends the pagination params (fixed
size, current offset), checks the status against the allowed codes
(src lines 196-204, fatal otherwise), then runs `pageStep`. -/
def paginateLoop (server : Request → Page) (allowed : List Nat) (size : Int)
    (limit : Option Int) :
    Nat → List JSON → Option Nat → List Request → LoopResult
  | 0, _, _, _ => .outOfFuel
  | fuel + 1, data, offsetParam, log =>
    let req : Request := ⟨some ⟨size, offsetParam⟩⟩
    let pg := server req
    if pg.status ∈ allowed then
      match pageStep limit data pg with
      | .stop d => .ok d (log ++ [req])
      | .next d off => paginateLoop server allowed size limit fuel d (some off) (log ++ [req])
    else .fatal pg.status

/-- Embedding of the `pagination.size` initialisation (src lines 151-157):
the default page size 100, lowered to the limit when a limit below 100 is
given. -/
def apiPageSize (limit : Option Int) : Int :=
  match limit with
  | some l => if l < 100 then l else 100
  | none => 100

/-- Keyword parameters accepted by `write_cache` (src line 114). -/
def write_cache_kwparams : List String := ["name", "data", "expire_secs"]

/-- The keyword under which `api` passes the TTL to `write_cache`
(src line 223). -/
def api_cacheWrite_kwarg : String := "expire_mins"

/-- Overall outcome of one `api(...)` call: a returned value together with
the cache directory afterwards, a fatal labeled abort (`fatal(...)`,
src lines 68-70), an uncaught Python exception, or loop fuel exhaustion. -/
inductive ApiOutcome where
  | ok (data : JSON)
  | fatal (msg : String)
  | crashed (msg : String)
  | outOfFuel

/-- Embedding of `api(path, ...)` (src lines 135-225).  In order: the
cache read and early return (144-148); the page-size initialisation
(150-157); token acquisition (159-175); the request loop — paginated
(186-216) or a single request whose decoded body is the result (217-219);
the jmespath transform, abstracted as an opaque pure function on the
result (220-221); and the cache write (222-224), which passes the TTL by
the keyword `expire_mins` although `write_cache` has no such parameter,
so reaching it raises `TypeError`.  HTTP traffic is the `server`
parameter; the refresh-token exchange reply is `tokenResp`. -/
def api (fuel : Nat) (noCache : Bool) (now : Int) (st : Store)
    (cache : Option String) (expire_mins : Option Int) (allowed : List Nat)
    (limit : Option Int) (paginate : Option String)
    (transform : Option (JSON → JSON)) (tokenResp : TokenExchangeResp)
    (server : Request → Page) : ApiOutcome × Store :=
  let hit : Option JSON :=
    match cache with
    | some name => if noCache then none else get_cache st name now
    | none => none
  match hit with
  | some d => (.ok d, st)
  | none =>
    let size := apiPageSize limit
    match acquireToken noCache st now tokenResp with
    | .error m => (.fatal m, st)
    | .ok (_, st₁) =>
      let fetched : Except (ApiOutcome × Store) JSON :=
        match paginate with
        | some _ =>
          match paginateLoop server allowed size limit fuel [] none [] with
          | .ok d _ => .ok (.arr d)
          | .fatal s => .error (.fatal ("HTTP " ++ pyStrNat s), st₁)
          | .outOfFuel => .error (.outOfFuel, st₁)
        | none =>
          let pg := server ⟨none⟩
          if pg.status ∈ allowed then .ok pg.raw
          else .error (.fatal ("HTTP " ++ pyStrNat pg.status), st₁)
      match fetched with
      | .error out => out
      | .ok body =>
        let result := match transform with
          | some f => f body
          | none => body
        match cache with
        | some name =>
          if noCache then (.ok result, st₁)
          else if api_cacheWrite_kwarg ∈ write_cache_kwparams then
            (.ok result, setStore st₁ name ⟨now + pyOrDefault expire_mins 60, result⟩)
          else
            (.crashed "TypeError: write_cache() got an unexpected keyword argument expire_mins", st₁)
        | none => (.ok result, st₁)

/- ### Join enrichment engine (src lines 228-245) -/

/-- Field lookup on a JSON value: the first binding of the key when the
value is a mapping (jmespath yields null for anything else / a missing
key). -/
def jsonGet (v : JSON) (key : String) : Option JSON :=
  match v with
  | .obj fields => (fields.find? (fun kv => kv.1 = key)).map (fun kv => kv.2)
  | _ => none

/-- Jmespath false-like values: null, false, empty string, empty array,
empty object.  `a || b` yields `b` exactly when `a` is false-like. -/
def jmesFalsy : JSON → Bool
  | .null => true
  | .bool false => true
  | .str "" => true
  | .arr [] => true
  | .obj [] => true
  | _ => false

/-- Embedding of the child transform built at src line 236, the jmespath
expression `<join_entity> || ` + "`[]`" + `` applied to the child response
body: the named field unless absent or false-like, else an empty list. -/
def fieldOr (field : String) (dflt : JSON) (body : JSON) : JSON :=
  let v := (jsonGet body field).getD .null
  if jmesFalsy v then dflt else v

/-- Elements of a sequence value.  `data.extend(...)` (src line 234) needs
the transform result to be iterable; within the claims' scope the child
field is a record sequence, and the model maps any non-sequence to no
elements. -/
def asArr : JSON → List JSON
  | .arr xs => xs
  | _ => []

/-- One child HTTP response in a join fan-out: the status code and the
decoded JSON body of `GET join_path.format(*d)`. -/
structure SingleResp where
  status : Nat
  body : JSON

/-- The records one child fetch contributes: its transform
`<join_entity> || ` + "`[]`" applied to the body (src line 236). -/
def childItems (joinEntity : String) (r : SingleResp) : List JSON :=
  asArr (fieldOr joinEntity (.arr []) r.body)

/-- Embedding of one `_join(d)` call (src lines 232-239, `cache=False`
path): an inner `api` call without pagination whose allowed codes are
`[200, 404]`; a disallowed status is fatal (src lines 196-204), an
allowed one contributes the transform's records. -/
def joinChildFetch (joinEntity : String) (r : SingleResp) : Except Nat (List JSON) :=
  if r.status ∈ [200, 404] then .ok (childItems joinEntity r)
  else .error r.status

/-- Embedding of the fan-out and accumulation of `api_join` (src lines
230-245): each parent record's child fetch appends its records to the
shared `data` list, and a fatal child fetch aborts the whole join.  The
bounded worker pool concatenates in task-completion order; the model
folds in parent order, which carries the same records (the claims are
about counts and abort behaviour, not order). -/
def api_join_children (joinEntity : String) (resps : List SingleResp) :
    Except Nat (List JSON) :=
  resps.foldl
    (fun acc r => acc.bind (fun d => (joinChildFetch joinEntity r).map (fun c => d ++ c)))
    (.ok [])

/-- All child records in parent order, for stating fan-out completeness. -/
def concatChildren (joinEntity : String) : List SingleResp → List JSON
  | [] => []
  | r :: rest => childItems joinEntity r ++ concatChildren joinEntity rest

/- ### Table renderer (src lines 248-313) -/

/-- A row: one decoded JSON mapping, in key insertion order. -/
abbrev Row : Type := List (String × JSON)

/-- Python dict assignment `r[k] = v`: replace the binding when the key
exists, else append it (dicts keep insertion order). -/
def dictSet (r : Row) (k : String) (v : JSON) : Row :=
  if r.any (fun kv => kv.1 = k) then
    r.map (fun kv => if kv.1 = k then (k, v) else kv)
  else r ++ [(k, v)]

/-- Python dict lookup `r.get(k)`. -/
def rowLookup (r : Row) (k : String) : Option JSON :=
  (r.find? (fun kv => kv.1 = k)).map (fun kv => kv.2)

/-- Comparison used by `sorted(data, key=lambda k: k[sort_key])`
(src line 256) on the sort-key values.  Python orders ints and strings of
like type this way and raises on mixed types; the model totalises the
mixed cases (the claims never compare mixed-type keys). -/
def jsonLE (a b : JSON) : Bool :=
  match a, b with
  | .num x, .num y => x ≤ y
  | .str x, .str y => x ≤ y
  | _, _ => true

/-- The caller-observable effects of one `print_table` call. -/
structure RenderResult where
  headersOut : List String
  callerRows : List Row
  dumped : Option (List Row)
  printedNoData : Bool
  reported : Bool

/-- The `data` list as the row loop iterates it: `sorted` rebinds `data`
to a stably sorted copy when `sort_key` is given (src lines 255-256),
holding the same row dicts.  Each row is tagged with its position in the
caller's list so the model can track those shared dicts. -/
def renderTagged (data : List Row) (sort_key : Option String) : List (Nat × Row) :=
  match sort_key with
  | some k =>
    data.enum.mergeSort (fun a b =>
      jsonLE ((rowLookup a.2 k).getD .null) ((rowLookup b.2 k).getD .null))
  | none => data.enum

/-- The row dicts after the loop body ran on each of them: with `counter`
set, iteration `rc` assigns `r[' '] = str(rc)` into the row dict
(src lines 261-266); tags are preserved. -/
def renderProcessed (data : List Row) (counter : Bool) (sort_key : Option String) :
    List (Nat × Row) :=
  if counter then
    (renderTagged data sort_key).enum.map
      (fun p => (p.2.1, dictSet p.2.2 " " (.str (pyStrNat (p.1 + 1)))))
  else renderTagged data sort_key

/-- Embedding of `print_table(headers, data, counter, sort_key, dumpfile)`
(src lines 248-313), restricted to its caller-observable effects (the
column-width computation, wrapping and line printing at src lines 267-308
read but never write the arguments and are omitted).  With no data it
prints the no-data notice and returns (252-254).  `counter` inserts the
`' '` header in place (258-260); the per-row mutations are
`renderProcessed`.  `headersOut` is the caller's headers list after the
call, `callerRows` the caller's list (caller order, same dicts, mutated),
`dumped` the rows serialised to the dump file (309-313), which is the
rebound `data` — the processed rows in iteration order. -/
def print_table (headers : List String) (data : List Row) (counter : Bool)
    (sort_key : Option String) (dumpfile : Option String) : RenderResult :=
  if data.length = 0 then
    ⟨headers, data, none, true, false⟩
  else
    ⟨if counter then " " :: headers else headers,
     (List.range data.length).map (fun tag =>
       (((renderProcessed data counter sort_key).find? (fun p => p.1 = tag)).map
         (fun p => p.2)).getD []),
     if dumpfile.isSome then
       some ((renderProcessed data counter sort_key).map (fun p => p.2))
     else none,
     false, dumpfile.isSome⟩

/- ### Theorems -/

/-- A cache directory with no entries. -/
def emptyStore : Store := fun _ => none

/-- C5: `read(name)` returns absence exactly when no entry exists or
`now >= expiresAt`, and otherwise the entry's data; a `write(name, data,
ttl)` followed immediately by `read(name)` with `ttl > 0` returns the
stored data; and once `now >= expiresAt` the read returns absence while
the raw record still exists on disk. -/
theorem cache_ttl_read_write (st : Store) (name : String) (now : Int) :
    (get_cache st name now = none ↔
      st name = none ∨ ∃ e, st name = some e ∧ e.expires ≤ now)
    ∧ (∀ e, st name = some e → now < e.expires → get_cache st name now = some e.data)
    ∧ (∀ data ttl, 0 < ttl →
        get_cache (write_cache st name data (some ttl) now) name now = some data)
    ∧ (∀ e, st name = some e → e.expires ≤ now →
        get_cache st name now = none ∧ get_cache_raw st name = some e) := by
  refine ⟨?_, ?_, ?_, ?_⟩
  · unfold get_cache
    cases h : st name with
    | none => simp
    | some e =>
      by_cases hlt : now < e.expires
      · simp only [if_pos hlt]
        constructor
        · intro h'; exact absurd h' (by simp)
        · rintro (h' | ⟨e', he', hexp⟩)
          · exact absurd h' (by simp)
          · injection he' with hee
            subst hee
            omega
      · simp only [if_neg hlt]
        constructor
        · intro _; exact Or.inr ⟨e, rfl, by omega⟩
        · intro _; trivial
  · intro e he hlt
    simp [get_cache, he, hlt]
  · intro data ttl httl
    have : pyOrDefault (some ttl) 60 = ttl := by
      simp [pyOrDefault]
      omega
    simp [get_cache, write_cache, setStore, this]
    omega
  · intro e he hexp
    refine ⟨?_, he⟩
    simp [get_cache, he]
    omega

theorem cache_ttl_read_write_witness :
    (0 : Int) < 5
    ∧ get_cache (write_cache emptyStore "k" (.str "v") (some 5) 100) "k" 100
        = some (.str "v") :=
  ⟨by decide, (cache_ttl_read_write emptyStore "k" 100).2.2.1 (.str "v") 5 (by decide)⟩

/-- C6 (amended): token acquisition reads the cache entry "token" when
caching is enabled and returns it on a hit; on a miss, or with caching
disabled, it performs the exchange and a non-200 status is a fatal error
with no retry; on success the access token is returned and, when caching
is enabled, stored with the response's `expires_in` as TTL — except that
a zero `expires_in` falls back to the 60-second default (the `or 60` in
`write_cache`). -/
theorem acquireToken_spec (st : Store) (now : Int) (resp : TokenExchangeResp) :
    (∀ tok, get_cache st "token" now = some tok →
      acquireToken false st now resp = .ok (tok, st))
    ∧ (get_cache st "token" now = none → resp.status ≠ 200 →
      acquireToken false st now resp =
        .error ("unable to get access_token HTTP " ++ pyStrNat resp.status))
    ∧ (resp.status ≠ 200 →
      acquireToken true st now resp =
        .error ("unable to get access_token HTTP " ++ pyStrNat resp.status))
    ∧ (get_cache st "token" now = none → resp.status = 200 →
      acquireToken false st now resp =
        .ok (.str resp.access_token,
          setStore st "token"
            ⟨now + pyOrDefault (some resp.expires_in) 60, .str resp.access_token⟩))
    ∧ (resp.status = 200 →
      acquireToken true st now resp = .ok (.str resp.access_token, st)) := by
  refine ⟨?_, ?_, ?_, ?_, ?_⟩
  · intro tok hhit
    simp [acquireToken, hhit]
  · intro hmiss hbad
    simp [acquireToken, hmiss, hbad]
  · intro hbad
    simp [acquireToken, hbad]
  · intro hmiss hok
    simp [acquireToken, hmiss, hok, write_cache]
  · intro hok
    simp [acquireToken, hok]

theorem acquireToken_spec_witness :
    get_cache emptyStore "token" 0 = none
    ∧ (⟨200, "tok", 1799⟩ : TokenExchangeResp).status = 200
    ∧ acquireToken false emptyStore 0 ⟨200, "tok", 1799⟩ =
        .ok (.str "tok", setStore emptyStore "token" ⟨0 + pyOrDefault (some 1799) 60, .str "tok"⟩) :=
  ⟨rfl, rfl, (acquireToken_spec emptyStore 0 ⟨200, "tok", 1799⟩).2.2.2.1 rfl rfl⟩

/-- C6 counterexample: a successful exchange whose `expires_in` is 0 is
cached with expiry `now + 60`, not `now + 0`, so the stored TTL is not
the response's `expires_in` value as the claim states. -/
theorem acquireToken_zero_expires_in :
    (match acquireToken false emptyStore 1000 ⟨200, "tok", 0⟩ with
      | .ok (_, st) => (st "token").map (fun e => e.expires)
      | .error _ => none) = some 1060
    ∧ (1060 : Int) ≠ 1000 + 0 := by
  exact ⟨rfl, by decide⟩

/-- C2: with `cache` set and caching enabled, reaching the cache-write
step does not write-and-return as the claim states: `api` passes the TTL
to `write_cache` under the keyword `expire_mins`, which `write_cache`
does not accept, so the call raises `TypeError`.  Evaluated at a concrete
run (cache name "q", empty cache, successful token exchange, one allowed
single-page response, transform applied). -/
theorem api_cacheWrite_typeerror :
    api_cacheWrite_kwarg ∉ write_cache_kwparams
    ∧ (api 2 false 0 emptyStore (some "q") (some 300) [200] none none
        (some (fun d => .arr [d])) ⟨200, "tok", 1799⟩
        (fun _ => ⟨200, .str "body", none, none⟩)).1
      = .crashed "TypeError: write_cache() got an unexpected keyword argument expire_mins" := by
  exact ⟨by decide, rfl⟩

/-- C1: after each page the stopping conditions are checked in this exact
order — (a) named field absent or empty page: stop with the data
accumulated so far; (b) accumulated length string-equal to the reported
total count: stop; (c) a set limit already reached: truncate to the limit
and stop; otherwise the loop issues the next request with the offset
parameter equal to the current accumulated length. -/
theorem pageStep_stopping_order (limit : Option Int) (data : List JSON) (pg : Page) :
    (pg.items = none → pageStep limit data pg = .stop data)
    ∧ (pg.items = some [] → pageStep limit data pg = .stop data)
    ∧ (∀ items, pg.items = some items → items ≠ [] →
        (pyStrNat (data ++ items).length = pyStrOptInt pg.totalCount →
          pageStep limit data pg = .stop (data ++ items))
        ∧ (pyStrNat (data ++ items).length ≠ pyStrOptInt pg.totalCount →
            (∀ l, limit = some l → l ≤ ((data ++ items).length : Int) →
              pageStep limit data pg = .stop (pySlice l (data ++ items)))
            ∧ ((limit = none ∨ ∃ l, limit = some l ∧ ((data ++ items).length : Int) < l) →
              pageStep limit data pg = .next (data ++ items) (data ++ items).length)))
    ∧ (∀ d off, pageStep limit data pg = .next d off → off = d.length)
    ∧ (∀ server allowed size fuel off log d' o',
        (server ⟨some ⟨size, off⟩⟩) = pg → pg.status ∈ allowed →
        pageStep limit data pg = .next d' o' →
        paginateLoop server allowed size limit (fuel + 1) data off log =
          paginateLoop server allowed size limit fuel d' (some o')
            (log ++ [⟨some ⟨size, off⟩⟩])) := by
  refine ⟨?_, ?_, ?_, ?_, ?_⟩
  · intro h
    simp [pageStep, h]
  · intro h
    simp [pageStep, h]
  · intro items hit hne
    have hlen : ¬ items.length = 0 := by
      simpa using hne
    constructor
    · intro heq
      simp only [pageStep, hit, if_neg hlen, if_pos heq]
    · intro hneq
      constructor
      · intro l hl hge
        subst hl
        simp only [pageStep, hit, if_neg hlen, if_neg hneq, if_pos hge]
      · rintro (hnone | ⟨l, hl, hlt⟩)
        · subst hnone
          simp only [pageStep, hit, if_neg hlen, if_neg hneq]
        · subst hl
          simp only [pageStep, hit, if_neg hlen, if_neg hneq, if_neg (not_le.mpr hlt)]
  · intro d off h
    cases hit : pg.items with
    | none =>
      simp only [pageStep, hit] at h
      exact absurd h (by simp)
    | some items =>
      simp only [pageStep, hit] at h
      by_cases hlen : items.length = 0
      · rw [if_pos hlen] at h
        exact absurd h (by simp)
      · rw [if_neg hlen] at h
        by_cases heq : pyStrNat (data ++ items).length = pyStrOptInt pg.totalCount
        · rw [if_pos heq] at h
          exact absurd h (by simp)
        · rw [if_neg heq] at h
          cases hl : limit with
          | none =>
            simp only [hl] at h
            injection h with h1 h2
            subst h1
            omega
          | some l =>
            simp only [hl] at h
            by_cases hge : l ≤ ((data ++ items).length : Int)
            · rw [if_pos hge] at h
              exact absurd h (by simp)
            · rw [if_neg hge] at h
              injection h with h1 h2
              subst h1
              omega
  · intro server allowed size fuel off log d' o' hserver hstat hstep
    conv_lhs => rw [paginateLoop]
    rw [hserver, if_pos hstat, hstep]

theorem pageStep_stopping_order_witness :
    (Page.mk 200 .null none none).items = none
    ∧ pageStep none [.num 7] ⟨200, .null, none, none⟩ = .stop [.num 7] :=
  ⟨rfl, (pageStep_stopping_order none [.num 7] ⟨200, .null, none, none⟩).1 rfl⟩

/-- Every request the loop logs carries the loop's fixed size parameter:
the `pagination` dict's size entry is set once before the loop and never
reassigned (only the offset key is updated, src line 215). -/
theorem paginateLoop_log_size (server : Request → Page) (allowed : List Nat)
    (size : Int) (limit : Option Int) :
    ∀ fuel data off log d log',
      paginateLoop server allowed size limit fuel data off log = .ok d log' →
      (∀ r ∈ log, ∃ o, r.params = some ⟨size, o⟩) →
      ∀ r ∈ log', ∃ o, r.params = some ⟨size, o⟩ := by
  intro fuel
  induction fuel with
  | zero =>
    intro data off log d log' hrun
    exact absurd hrun (by simp [paginateLoop])
  | succ f ih =>
    intro data off log d log' hrun hlog
    rw [paginateLoop] at hrun
    by_cases hstat : (server ⟨some ⟨size, off⟩⟩).status ∈ allowed
    · rw [if_pos hstat] at hrun
      have hlog' : ∀ r ∈ log ++ [Request.mk (some ⟨size, off⟩)],
          ∃ o, r.params = some ⟨size, o⟩ := by
        intro r hr
        rcases List.mem_append.mp hr with hr | hr
        · exact hlog r hr
        · rcases List.mem_singleton.mp hr with rfl
          exact ⟨off, rfl⟩
      cases hstep : pageStep limit data (server ⟨some ⟨size, off⟩⟩) with
      | stop d0 =>
        rw [hstep] at hrun
        injection hrun with h1 h2
        subst h2
        exact hlog'
      | next d0 o0 =>
        rw [hstep] at hrun
        exact ih d0 (some o0) _ d log' hrun hlog'
    · rw [if_neg hstat] at hrun
      exact absurd hrun (by simp)

/-- C10: when a limit below the default page size 100 is set, the
requested `pagination.size` equals the limit, and every request issued by
a successful paginated run carries that size, so no single request asks
the server for more records than the limit. -/
theorem paginate_size_uses_limit (l : Int) (hl : l < 100) :
    apiPageSize (some l) = l
    ∧ ∀ server allowed fuel limit data off d log,
        paginateLoop server allowed (apiPageSize (some l)) limit fuel data off [] = .ok d log →
        ∀ r ∈ log, ∃ o, r.params = some ⟨l, o⟩ := by
  have hsize : apiPageSize (some l) = l := by
    simp [apiPageSize, hl]
  refine ⟨hsize, ?_⟩
  intro server allowed fuel limit data off d log hrun r hr
  rw [hsize] at hrun
  exact paginateLoop_log_size server allowed l limit fuel data off [] d log hrun
    (by intro r hr; exact absurd hr (by simp)) r hr

theorem paginate_size_uses_limit_witness :
    (7 : Int) < 100 ∧ apiPageSize (some 7) = 7 :=
  ⟨by decide, (paginate_size_uses_limit 7 (by decide)).1⟩

/-- The page a well-behaved server holding `total` records answers at
offset `off` with requested page size `size`: the next
`min size (total - off)` records. -/
def mkItems (total size off : Nat) : List JSON :=
  (List.range (min size (total - off))).map (fun i => .num ((off + i : Nat) : Int))

/-- A well-behaved server holding `total` records: status 200, reported
`totalCount = total`, pages per `mkItems`.  A request without an offset
parameter reads from offset 0. -/
def mkServer (total : Nat) : Request → Page := fun req =>
  let off : Nat := match req.params with
    | some p => p.offsetParam.getD 0
    | none => 0
  let size : Nat := match req.params with
    | some p => p.size.toNat
    | none => 0
  ⟨200, .null, some (mkItems total size off), some (total : Int)⟩

theorem mkItems_length (total size off : Nat) :
    (mkItems total size off).length = min size (total - off) := by
  simp [mkItems]

/-- Invariant of the pagination loop against `mkServer total` with a fixed
page size and no limit: entering with accumulated length equal to the
offset, strictly below the total, and fuel at least the number of
remaining pages, the loop returns all `total` records and logs exactly
`ceil(remaining / size)` further requests. -/
theorem paginateLoop_mkServer (total size : Nat) (hS : 1 ≤ size) :
    ∀ fuel (data : List JSON) (off : Option Nat) (log : List Request),
      data.length = off.getD 0 → off.getD 0 < total →
      (total - off.getD 0 + size - 1) / size ≤ fuel →
      ∃ d log', paginateLoop (mkServer total) [200] (size : Int) none fuel data off log
          = .ok d log'
        ∧ d.length = total
        ∧ log'.length = log.length + (total - off.getD 0 + size - 1) / size := by
  intro fuel
  induction fuel with
  | zero =>
    intro data off log hdata hofflt hfuel
    exfalso
    have h1 : 1 ≤ (total - off.getD 0 + size - 1) / size := by
      refine (Nat.le_div_iff_mul_le (by omega)).mpr ?_
      omega
    omega
  | succ f ih =>
    intro data off log hdata hofflt hfuel
    have hitems : (mkServer total ⟨some ⟨(size : Int), off⟩⟩).items
        = some (mkItems total size (off.getD 0)) := rfl
    have htc : (mkServer total ⟨some ⟨(size : Int), off⟩⟩).totalCount
        = some (total : Int) := rfl
    have hcond : (mkServer total ⟨some ⟨(size : Int), off⟩⟩).status ∈ ([200] : List Nat) := by
      simp [mkServer]
    have hred : pyStrOptInt (some (total : Int)) = pyStrNat total := rfl
    have hlen0 : ¬ (mkItems total size (off.getD 0)).length = 0 := by
      rw [mkItems_length]
      omega
    by_cases hle : total - off.getD 0 ≤ size
    · -- last page: the accumulated length reaches the total count
      have hlen' : (data ++ mkItems total size (off.getD 0)).length = total := by
        rw [List.length_append, mkItems_length]
        omega
      have heq : pyStrNat (data ++ mkItems total size (off.getD 0)).length
          = pyStrOptInt (mkServer total ⟨some ⟨(size : Int), off⟩⟩).totalCount := by
        rw [htc, hred, hlen']
      have hstep : pageStep none data (mkServer total ⟨some ⟨(size : Int), off⟩⟩)
          = .stop (data ++ mkItems total size (off.getD 0)) := by
        simp only [pageStep, hitems, if_neg hlen0, if_pos heq]
      refine ⟨data ++ mkItems total size (off.getD 0),
        log ++ [⟨some ⟨(size : Int), off⟩⟩], ?_, hlen', ?_⟩
      · rw [paginateLoop, if_pos hcond, hstep]
      · have hdiv : (total - off.getD 0 + size - 1) / size = 1 := by
          refine Nat.div_eq_of_lt_le (by omega) ?_
          omega
        rw [hdiv]
        simp only [List.length_append, List.length_singleton]
    · -- full page: the loop continues at offset `off0 + size`
      have hlen' : (data ++ mkItems total size (off.getD 0)).length = off.getD 0 + size := by
        rw [List.length_append, mkItems_length]
        omega
      have hneq : ¬ (pyStrNat (data ++ mkItems total size (off.getD 0)).length
          = pyStrOptInt (mkServer total ⟨some ⟨(size : Int), off⟩⟩).totalCount) := by
        rw [htc, hred, hlen']
        intro hcontra
        have := pyStrNat_inj hcontra
        omega
      have hstep : pageStep none data (mkServer total ⟨some ⟨(size : Int), off⟩⟩)
          = .next (data ++ mkItems total size (off.getD 0))
              (data ++ mkItems total size (off.getD 0)).length := by
        simp only [pageStep, hitems, if_neg hlen0, if_neg hneq]
      have hdiv1 : (total - off.getD 0 + size - 1) / size
          = (total - off.getD 0 - 1) / size + 1 := by
        have hnum : total - off.getD 0 + size - 1 = (total - off.getD 0 - 1) + size := by
          omega
        rw [hnum, Nat.add_div_right _ (by omega)]
      have hnum2 : total - (off.getD 0 + size) + size - 1 = total - off.getD 0 - 1 := by
        omega
      have harg1 : (data ++ mkItems total size (off.getD 0)).length
          = (some (off.getD 0 + size) : Option Nat).getD 0 := by
        rw [hlen']
        rfl
      have harg2 : (some (off.getD 0 + size) : Option Nat).getD 0 < total := by
        simp only [Option.getD_some]
        omega
      have harg3 : (total - (some (off.getD 0 + size) : Option Nat).getD 0 + size - 1) / size
          ≤ f := by
        simp only [Option.getD_some]
        rw [hnum2]
        have h' : (total - off.getD 0 - 1) / size + 1 ≤ f + 1 := by
          rw [← hdiv1]
          exact hfuel
        exact Nat.le_of_succ_le_succ h'
      obtain ⟨d, log', hrec, hdlen, hloglen⟩ :=
        ih (data ++ mkItems total size (off.getD 0))
          (some (off.getD 0 + size)) (log ++ [⟨some ⟨(size : Int), off⟩⟩])
          harg1 harg2 harg3
      refine ⟨d, log', ?_, hdlen, ?_⟩
      · rw [paginateLoop, if_pos hcond, hstep]
        have hgoal := hrec
        rw [← hlen'] at hgoal
        exact hgoal
      · rw [hloglen]
        simp only [List.length_append, List.length_singleton, Option.getD_some]
        rw [hnum2, hdiv1]
        ring

set_option maxRecDepth 100000

/-- C3 (amended): against a server reporting `totalCount = T` with page
size `S`, for `T ≥ 1` and no limit the executor issues exactly
`ceil(T/S)` page requests and assembles exactly `T` elements; in
particular the 100/100/17, `totalCount = 217` scenario yields 217
elements after 3 requests.  When a limit below the default size 100 is
set and `limit < T`, the page size becomes the limit and exactly `limit`
elements come back after one request.  A `totalCount` of 0 still costs
one request (the loop always issues its first request before checking
anything). -/
theorem paginate_termination :
    (∀ total size fuel : Nat, 1 ≤ total → 1 ≤ size → (total + size - 1) / size ≤ fuel →
      ∃ d log, paginateLoop (mkServer total) [200] (size : Int) none fuel [] none [] = .ok d log
        ∧ d.length = total ∧ log.length = (total + size - 1) / size)
    ∧ (∀ total lim : Nat, ∀ fuel, 1 ≤ lim → lim < 100 → lim < total → 1 ≤ fuel →
      ∃ d log,
        paginateLoop (mkServer total) [200] ((lim : Nat) : Int) (some (lim : Int)) fuel [] none []
          = .ok d log
        ∧ d.length = lim ∧ log.length = 1)
    ∧ (∀ size fuel : Nat, 1 ≤ fuel →
      paginateLoop (mkServer 0) [200] (size : Int) none fuel [] none []
        = .ok [] [⟨some ⟨(size : Int), none⟩⟩])
    ∧ (paginateLoop (mkServer 217) [200] (100 : Int) none 5 [] none []).len = some 217
    ∧ (paginateLoop (mkServer 217) [200] (100 : Int) none 5 [] none []).reqs = some 3 := by
  refine ⟨?_, ?_, ?_, by decide, by decide⟩
  · intro total size fuel htot hsize hfuel
    obtain ⟨d, log, h1, h2, h3⟩ :=
      paginateLoop_mkServer total size hsize fuel [] none [] rfl htot hfuel
    exact ⟨d, log, h1, h2, by simpa using h3⟩
  · intro total lim fuel hlim hlim100 hlimtot hfuel
    cases fuel with
    | zero => omega
    | succ f =>
      have hitems : (mkServer total ⟨some ⟨(lim : Int), none⟩⟩).items
          = some (mkItems total lim 0) := rfl
      have htc : (mkServer total ⟨some ⟨(lim : Int), none⟩⟩).totalCount
          = some (total : Int) := rfl
      have hcond : (mkServer total ⟨some ⟨(lim : Int), none⟩⟩).status ∈ ([200] : List Nat) := by
        simp [mkServer]
      have hmlen : (mkItems total lim 0).length = lim := by
        rw [mkItems_length]
        omega
      have hlen0 : ¬ (mkItems total lim 0).length = 0 := by
        omega
      have hlen' : (([] : List JSON) ++ mkItems total lim 0).length = lim := by
        simpa using hmlen
      have hneq : ¬ (pyStrNat (([] : List JSON) ++ mkItems total lim 0).length
          = pyStrOptInt (mkServer total ⟨some ⟨(lim : Int), none⟩⟩).totalCount) := by
        rw [htc, hlen']
        intro hcontra
        have := pyStrNat_inj hcontra
        omega
      have hge : (lim : Int) ≤ ((([] : List JSON) ++ mkItems total lim 0).length : Int) := by
        rw [hlen']
      have hstep : pageStep (some (lim : Int)) [] (mkServer total ⟨some ⟨(lim : Int), none⟩⟩)
          = .stop (pySlice (lim : Int) ([] ++ mkItems total lim 0)) := by
        simp only [pageStep, hitems, if_neg hlen0, if_neg hneq, if_pos hge]
      refine ⟨pySlice (lim : Int) ([] ++ mkItems total lim 0),
        [⟨some ⟨(lim : Int), none⟩⟩], ?_, ?_, rfl⟩
      · rw [paginateLoop, if_pos hcond, hstep]
        rfl
      · simp only [pySlice, List.length_take]
        rw [if_pos (by omega : (0 : Int) ≤ (lim : Int))]
        simp only [Int.toNat_natCast]
        rw [hlen']
        omega
  · intro size fuel hfuel
    cases fuel with
    | zero => omega
    | succ f =>
      have hitems : (mkServer 0 ⟨some ⟨(size : Int), none⟩⟩).items
          = some (mkItems 0 size 0) := rfl
      have hcond : (mkServer 0 ⟨some ⟨(size : Int), none⟩⟩).status ∈ ([200] : List Nat) := by
        simp [mkServer]
      have hempty : (mkItems 0 size 0).length = 0 := by
        rw [mkItems_length]
        omega
      have hstep : pageStep none [] (mkServer 0 ⟨some ⟨(size : Int), none⟩⟩)
          = .stop [] := by
        simp only [pageStep, hitems, if_pos hempty]
      rw [paginateLoop, if_pos hcond, hstep]
      rfl

theorem paginate_termination_witness :
    ((1 : Nat) ≤ 217 ∧ (1 : Nat) ≤ 100 ∧ (217 + 100 - 1) / 100 ≤ 5)
    ∧ ∃ d log, paginateLoop (mkServer 217) [200] ((100 : Nat) : Int) none 5 [] none []
        = .ok d log
      ∧ d.length = 217 ∧ log.length = (217 + 100 - 1) / 100 :=
  ⟨⟨by decide, by decide, by decide⟩,
    paginate_termination.1 217 100 5 (by decide) (by decide) (by decide)⟩

/-- C3 counterexample, two concrete runs.  First, at `totalCount = 0`
(page size 100, no limit) the executor still issues one request — not
`ceil(0/100) = 0` requests as the claim predicts.  Second, with
`totalCount = 160` and `limit = 150 < 160` the run returns all 160
elements, not exactly `limit = 150`: the total-count check (b) runs
before the limit check (c), and the accumulated length hits 160 exactly
at the second page. -/
theorem paginate_zero_total_requests :
    ((paginateLoop (mkServer 0) [200] (100 : Int) none 5 [] none []).reqs = some 1
      ∧ (0 + 100 - 1) / 100 = 0
      ∧ ¬ (paginateLoop (mkServer 0) [200] (100 : Int) none 5 [] none []).reqs
          = some ((0 + 100 - 1) / 100))
    ∧ ((paginateLoop (mkServer 160) [200] (100 : Int) (some 150) 5 [] none []).len = some 160
      ∧ (150 : Nat) < 160
      ∧ ¬ (paginateLoop (mkServer 160) [200] (100 : Int) (some 150) 5 [] none []).len
          = some 150) := by
  exact ⟨⟨by decide, by decide, by decide⟩, ⟨by decide, by decide, by decide⟩⟩

theorem concatChildren_length (joinEntity : String) (resps : List SingleResp) :
    (concatChildren joinEntity resps).length
      = (resps.map (fun r => (childItems joinEntity r).length)).sum := by
  induction resps with
  | nil => rfl
  | cons r rest ih =>
    simp [concatChildren, ih]

/-- Folding further child fetches onto an already-failed accumulator keeps
the failure: a fatal child fetch aborts the whole join. -/
theorem api_join_children_error (joinEntity : String) (s : Nat) :
    ∀ resps : List SingleResp,
      resps.foldl
        (fun (acc : Except Nat (List JSON)) r =>
          acc.bind (fun d => (joinChildFetch joinEntity r).map (fun c => d ++ c)))
        (Except.error s) = Except.error s := by
  intro resps
  induction resps with
  | nil => rfl
  | cons r rest ih =>
    simpa using ih

/-- Folding child fetches from a successful accumulator appends all child
records as long as every status is allowed. -/
theorem api_join_children_ok (joinEntity : String) :
    ∀ (resps : List SingleResp) (acc : List JSON),
      (∀ r ∈ resps, r.status ∈ [200, 404]) →
      resps.foldl
        (fun (acc : Except Nat (List JSON)) r =>
          acc.bind (fun d => (joinChildFetch joinEntity r).map (fun c => d ++ c)))
        (Except.ok acc) = Except.ok (acc ++ concatChildren joinEntity resps) := by
  intro resps
  induction resps with
  | nil =>
    intro acc _
    simp [concatChildren]
  | cons r rest ih =>
    intro acc hall
    have hr : r.status ∈ [200, 404] := hall r (by simp)
    have hfetch : joinChildFetch joinEntity r = .ok (childItems joinEntity r) := by
      simp [joinChildFetch, hr]
    have hstep : (Except.ok acc).bind
          (fun d => (joinChildFetch joinEntity r).map (fun c => d ++ c))
        = Except.ok (acc ++ childItems joinEntity r) := by
      rw [hfetch]
      rfl
    rw [List.foldl_cons, hstep,
      ih (acc ++ childItems joinEntity r) (fun x hx => hall x (by simp [hx]))]
    simp [concatChildren, List.append_assoc]

/-- A fatal child anywhere in the fan-out aborts the whole join, whatever
was accumulated. -/
theorem api_join_children_aborts (joinEntity : String) :
    ∀ (resps : List SingleResp) (acc : List JSON),
      (∃ r ∈ resps, ¬ r.status ∈ [200, 404]) →
      ∃ s, resps.foldl
        (fun (acc : Except Nat (List JSON)) r =>
          acc.bind (fun d => (joinChildFetch joinEntity r).map (fun c => d ++ c)))
        (Except.ok acc) = Except.error s := by
  intro resps
  induction resps with
  | nil =>
    intro acc h
    obtain ⟨r, hmem, _⟩ := h
    exact absurd hmem (by simp)
  | cons x rest ih =>
    intro acc h
    by_cases hx : x.status ∈ [200, 404]
    · have hfetch : joinChildFetch joinEntity x = .ok (childItems joinEntity x) := by
        simp [joinChildFetch, hx]
      have hstep : (Except.ok acc).bind
            (fun d => (joinChildFetch joinEntity x).map (fun c => d ++ c))
          = Except.ok (acc ++ childItems joinEntity x) := by
        rw [hfetch]
        rfl
      rw [List.foldl_cons, hstep]
      apply ih
      obtain ⟨r, hmem, hbad⟩ := h
      rcases List.mem_cons.mp hmem with rfl | hmem'
      · exact absurd hx hbad
      · exact ⟨r, hmem', hbad⟩
    · have hfetch : joinChildFetch joinEntity x = .error x.status := by
        simp [joinChildFetch, hx]
      have hstep : (Except.ok acc).bind
            (fun d => (joinChildFetch joinEntity x).map (fun c => d ++ c))
          = Except.error x.status := by
        rw [hfetch]
        rfl
      refine ⟨x.status, ?_⟩
      rw [List.foldl_cons, hstep, api_join_children_error joinEntity x.status rest]

/-- C4: when every child response is allowed (200 or not-found 404) the
join succeeds and contains exactly the concatenation of all per-parent
child records — `Σ k_i` records in total; a 404 whose body lacks the join
field contributes zero records without aborting the other parents'
contributions; and any disallowed status on a single child fetch aborts
the entire join as a fatal error. -/
theorem api_join_fanout (joinEntity : String) (resps : List SingleResp) :
    ((∀ r ∈ resps, r.status ∈ [200, 404]) →
      api_join_children joinEntity resps = .ok (concatChildren joinEntity resps)
      ∧ (concatChildren joinEntity resps).length
          = (resps.map (fun r => (childItems joinEntity r).length)).sum)
    ∧ (∀ r : SingleResp, r.status = 404 → jsonGet r.body joinEntity = none →
        childItems joinEntity r = [])
    ∧ ((∃ r ∈ resps, ¬ r.status ∈ [200, 404]) →
        ∃ s, api_join_children joinEntity resps = .error s) := by
  refine ⟨?_, ?_, ?_⟩
  · intro hall
    refine ⟨?_, concatChildren_length joinEntity resps⟩
    have h := api_join_children_ok joinEntity resps [] hall
    simpa [api_join_children] using h
  · intro r h404 habsent
    simp [childItems, fieldOr, habsent, jmesFalsy, asArr]
  · intro hex
    have h := api_join_children_aborts joinEntity resps [] hex
    simpa [api_join_children] using h

/-- The spec's join scenario: two parents, parent A's child fetch returns
HTTP 404 with no join field in the body, parent B's returns two policy
records. -/
def joinScenarioResps : List SingleResp :=
  [⟨404, .obj [("error", .str "not found")]⟩,
   ⟨200, .obj [("policies", .arr [.num 1, .num 2])]⟩]

theorem api_join_fanout_witness :
    (∀ r ∈ joinScenarioResps, r.status ∈ [200, 404])
    ∧ (api_join_children "policies" joinScenarioResps
        = .ok (concatChildren "policies" joinScenarioResps)
      ∧ (concatChildren "policies" joinScenarioResps).length
          = (joinScenarioResps.map (fun r => (childItems "policies" r).length)).sum)
    ∧ (concatChildren "policies" joinScenarioResps).length = 2 :=
  ⟨by decide, (api_join_fanout "policies" joinScenarioResps).1 (by decide), rfl⟩

/-- C7: with the global cache-bypass flag set, every cache lookup during
query execution behaves as a miss — the outcome is independent of the
cache contents, both for the query-result entry and the token entry —
and no cache write is performed: the cache directory after the call is
exactly the one before it (neither the result nor the token is
persisted). -/
theorem api_noCache_bypass (fuel : Nat) (now : Int) (st st' : Store)
    (cache : Option String) (em : Option Int) (allowed : List Nat)
    (limit : Option Int) (paginate : Option String) (tr : Option (JSON → JSON))
    (tok : TokenExchangeResp) (server : Request → Page) :
    (api fuel true now st cache em allowed limit paginate tr tok server).1
      = (api fuel true now st' cache em allowed limit paginate tr tok server).1
    ∧ (api fuel true now st cache em allowed limit paginate tr tok server).2 = st := by
  by_cases htok : tok.status = 200
  · have h1 : acquireToken true st now tok = .ok (.str tok.access_token, st) := by
      simp [acquireToken, htok]
    have h2 : acquireToken true st' now tok = .ok (.str tok.access_token, st') := by
      simp [acquireToken, htok]
    constructor
    · cases paginate with
      | none =>
        by_cases hc : (server ⟨none⟩).status ∈ allowed <;>
          cases cache <;> simp [api, h1, h2, hc]
      | some p =>
        cases hloop : paginateLoop server allowed (apiPageSize limit) limit fuel [] none [] <;>
          cases cache <;> simp [api, h1, h2, hloop]
    · cases paginate with
      | none =>
        by_cases hc : (server ⟨none⟩).status ∈ allowed <;>
          cases cache <;> simp [api, h1, hc]
      | some p =>
        cases hloop : paginateLoop server allowed (apiPageSize limit) limit fuel [] none [] <;>
          cases cache <;> simp [api, h1, hloop]
  · have h1 : acquireToken true st now tok =
        .error ("unable to get access_token HTTP " ++ pyStrNat tok.status) := by
      simp [acquireToken, htok]
    have h2 : acquireToken true st' now tok =
        .error ("unable to get access_token HTTP " ++ pyStrNat tok.status) := by
      simp [acquireToken, htok]
    constructor
    · cases cache with
      | none => simp [api, h1, h2]
      | some name => simp [api, h1, h2]
    · cases cache with
      | none => simp [api, h1]
      | some name => simp [api, h1]

/- ### Renderer helper lemmas -/

theorem rowLookup_mapReplace (k : String) (v : JSON) :
    ∀ r : Row, r.any (fun kv => kv.1 = k) = true →
      rowLookup (r.map (fun kv => if kv.1 = k then (k, v) else kv)) k = some v := by
  intro r
  induction r with
  | nil =>
    intro h
    simp at h
  | cons kv t ih =>
    intro h
    by_cases hk : kv.1 = k
    · simp only [List.map_cons, if_pos hk]
      unfold rowLookup
      rw [List.find?_cons_of_pos _ (by simp)]
      rfl
    · have ht : t.any (fun kv => kv.1 = k) = true := by
        rcases List.any_eq_true.mp h with ⟨x, hx, hpx⟩
        rcases List.mem_cons.mp hx with rfl | hx'
        · exact absurd (by simpa using hpx) hk
        · exact List.any_eq_true.mpr ⟨x, hx', hpx⟩
      simp only [List.map_cons, if_neg hk]
      unfold rowLookup
      rw [List.find?_cons_of_neg _ (by simp [hk])]
      exact ih ht

theorem rowLookup_dictSet (r : Row) (k : String) (v : JSON) :
    rowLookup (dictSet r k v) k = some v := by
  unfold dictSet
  by_cases h : r.any (fun kv => kv.1 = k)
  · rw [if_pos h]
    exact rowLookup_mapReplace k v r h
  · rw [if_neg h]
    unfold rowLookup
    rw [List.find?_append]
    have hall : ∀ x ∈ r, ¬ ((fun kv => decide (kv.1 = k)) x = true) := by
      intro x hx hcontra
      exact h (List.any_eq_true.mpr ⟨x, hx, hcontra⟩)
    rw [List.find?_eq_none.mpr hall]
    rw [List.find?_cons_of_pos _ (by simp)]
    rfl

theorem find?_tag_nodup {α : Type} :
    ∀ (l : List (Nat × α)) (i : Nat) (r : α),
      (l.map Prod.fst).Nodup → (i, r) ∈ l →
      l.find? (fun p => p.1 = i) = some (i, r) := by
  intro l
  induction l with
  | nil =>
    intro i r _ hm
    exact absurd hm (by simp)
  | cons x t ih =>
    intro i r hnd hm
    rw [List.map_cons] at hnd
    have hnd' := List.nodup_cons.mp hnd
    by_cases hx : x.1 = i
    · rw [List.find?_cons_of_pos _ (by simp [hx])]
      rcases List.mem_cons.mp hm with heq | hm'
      · rw [heq]
      · exfalso
        have hmem : i ∈ t.map Prod.fst := List.mem_map.mpr ⟨(i, r), hm', rfl⟩
        rw [hx] at hnd'
        exact hnd'.1 hmem
    · rw [List.find?_cons_of_neg _ (by simp [hx])]
      rcases List.mem_cons.mp hm with heq | hm'
      · exact absurd (congrArg Prod.fst heq.symm) hx
      · exact ih i r hnd'.2 hm'

theorem renderTagged_length (data : List Row) (sort_key : Option String) :
    (renderTagged data sort_key).length = data.length := by
  cases sort_key with
  | none => simp [renderTagged, List.enum_length]
  | some k => simp [renderTagged, List.length_mergeSort, List.enum_length]

theorem renderTagged_perm (data : List Row) (sort_key : Option String) :
    (renderTagged data sort_key).Perm data.enum := by
  cases sort_key with
  | none => exact List.Perm.refl _
  | some k => exact List.mergeSort_perm _ _

theorem renderProcessed_length (data : List Row) (counter : Bool) (sort_key : Option String) :
    (renderProcessed data counter sort_key).length = data.length := by
  cases counter with
  | false => simp [renderProcessed, renderTagged_length]
  | true => simp [renderProcessed, List.enum_length, renderTagged_length]

theorem renderProcessed_map_fst (data : List Row) (counter : Bool) (sort_key : Option String) :
    (renderProcessed data counter sort_key).map Prod.fst
      = (renderTagged data sort_key).map Prod.fst := by
  cases counter with
  | false => rfl
  | true =>
    rw [renderProcessed, if_pos rfl, List.map_map]
    have h1 : (Prod.fst ∘ fun p : Nat × (Nat × Row) =>
        (p.2.1, dictSet p.2.2 " " (.str (pyStrNat (p.1 + 1)))))
        = (Prod.fst ∘ Prod.snd) := rfl
    rw [h1, ← List.map_map, List.enum_map_snd]

theorem renderProcessed_fst_perm (data : List Row) (counter : Bool) (sort_key : Option String) :
    ((renderProcessed data counter sort_key).map Prod.fst).Perm
      (List.range data.length) := by
  rw [renderProcessed_map_fst]
  have h := (renderTagged_perm data sort_key).map Prod.fst
  rw [List.enum_map_fst] at h
  exact h

theorem renderProcessed_fst_nodup (data : List Row) (counter : Bool) (sort_key : Option String) :
    ((renderProcessed data counter sort_key).map Prod.fst).Nodup :=
  ((renderProcessed_fst_perm data counter sort_key).nodup_iff).mpr (List.nodup_range _)

theorem renderProcessed_get (data : List Row) (sort_key : Option String) (j : Nat)
    (hj : j < (renderTagged data sort_key).length)
    (hj' : j < (renderProcessed data true sort_key).length) :
    (renderProcessed data true sort_key).get ⟨j, hj'⟩
      = (((renderTagged data sort_key).get ⟨j, hj⟩).1,
         dictSet ((renderTagged data sort_key).get ⟨j, hj⟩).2 " " (.str (pyStrNat (j + 1)))) := by
  simp [renderProcessed, List.getElem_map, List.getElem_enum]

theorem renderProcessed_mem (data : List Row) (sort_key : Option String) (p : Nat × Row)
    (hp : p ∈ renderProcessed data true sort_key) :
    ∃ j, j < data.length ∧ ∃ hj : j < (renderTagged data sort_key).length,
      p = (((renderTagged data sort_key).get ⟨j, hj⟩).1,
           dictSet ((renderTagged data sort_key).get ⟨j, hj⟩).2 " " (.str (pyStrNat (j + 1)))) := by
  obtain ⟨j, hj', hpj⟩ := List.getElem_of_mem hp
  have hjn : j < data.length := by
    rw [renderProcessed_length] at hj'
    exact hj'
  have hjt : j < (renderTagged data sort_key).length := by
    rw [renderTagged_length]
    exact hjn
  refine ⟨j, hjn, hjt, ?_⟩
  rw [← hpj]
  have h := renderProcessed_get data sort_key j hjt hj'
  simpa [List.get_eq_getElem] using h

/-- C9: with `counter` true and non-empty rows, `print_table` mutates its
arguments in place — the counter header `' '` is inserted at the front of
the caller's headers list, and every row dict in the caller's collection
gains a `' '` key holding a 1-based row index as a string (the row's
position in render order, which with no sort key is its position in the
caller's list); both mutations are observable after the call returns. -/
theorem print_table_inplace_mutation (headers : List String) (data : List Row)
    (sort_key : Option String) (dumpfile : Option String) (hne : data ≠ []) :
    (print_table headers data true sort_key dumpfile).headersOut = " " :: headers
    ∧ (print_table headers data true sort_key dumpfile).callerRows.length = data.length
    ∧ (sort_key = none → ∀ i, i < data.length →
        rowLookup ((print_table headers data true none dumpfile).callerRows.getD i []) " "
          = some (.str (pyStrNat (i + 1))))
    ∧ (∀ r ∈ (print_table headers data true sort_key dumpfile).callerRows,
        ∃ k, 1 ≤ k ∧ k ≤ data.length ∧ rowLookup r " " = some (.str (pyStrNat k))) := by
  have hne0 : ¬ data.length = 0 := by
    simpa using hne
  refine ⟨?_, ?_, ?_, ?_⟩
  · simp [print_table, if_neg hne0]
  · simp [print_table, if_neg hne0]
  · intro hsk i hiN
    subst hsk
    have hit : i < (renderTagged data none).length := by
      rw [renderTagged_length]
      exact hiN
    have hip : i < (renderProcessed data true none).length := by
      rw [renderProcessed_length]
      exact hiN
    have hgetTagged : (renderTagged data none).get ⟨i, hit⟩ = (i, data.get ⟨i, hiN⟩) := by
      simp [renderTagged, List.getElem_enum]
    have hgetProc : (renderProcessed data true none).get ⟨i, hip⟩
        = (i, dictSet (data.get ⟨i, hiN⟩) " " (.str (pyStrNat (i + 1)))) := by
      rw [renderProcessed_get data none i hit hip, hgetTagged]
    have hfind : (renderProcessed data true none).find? (fun p => p.1 = i)
        = some (i, dictSet (data.get ⟨i, hiN⟩) " " (.str (pyStrNat (i + 1)))) := by
      apply find?_tag_nodup _ i _ (renderProcessed_fst_nodup data true none)
      rw [← hgetProc]
      exact List.get_mem _ _ _
    have hcaller : (print_table headers data true none dumpfile).callerRows
        = (List.range data.length).map (fun tag =>
            (((renderProcessed data true none).find? (fun p => p.1 = tag)).map
              (fun p => p.2)).getD []) := by
      simp [print_table, hne0]
    rw [hcaller, List.getD_eq_getElem _ _ (by simpa using hiN)]
    simp only [List.getElem_map, List.getElem_range, hfind,
      Option.map_some, Option.getD_some]
    exact rowLookup_dictSet _ " " _
  · intro r hr
    simp only [print_table, if_neg hne0] at hr
    obtain ⟨tag, htag, hrtag⟩ := List.mem_map.mp hr
    have htagN : tag < data.length := List.mem_range.mp htag
    have htagmem : tag ∈ (renderProcessed data true sort_key).map Prod.fst := by
      refine ((renderProcessed_fst_perm data true sort_key).mem_iff).mpr ?_
      exact List.mem_range.mpr htagN
    obtain ⟨p, hpmem, hptag⟩ := List.mem_map.mp htagmem
    have hpeq : p = (tag, p.2) := by
      rw [← hptag]
    have hfind : (renderProcessed data true sort_key).find? (fun q => q.1 = tag)
        = some (tag, p.2) := by
      apply find?_tag_nodup _ tag _ (renderProcessed_fst_nodup data true sort_key)
      rw [← hpeq]
      exact hpmem
    obtain ⟨j, hjN, hjt, hpform⟩ := renderProcessed_mem data sort_key p hpmem
    have hsnd : p.2 = dictSet ((renderTagged data sort_key).get ⟨j, hjt⟩).2 " "
        (.str (pyStrNat (j + 1))) := by
      rw [hpform]
    refine ⟨j + 1, by omega, by omega, ?_⟩
    rw [← hrtag]
    simp only [hfind, Option.map_some, Option.getD_some, hsnd]
    exact rowLookup_dictSet _ " " _

theorem print_table_inplace_mutation_witness :
    ([[("a", JSON.str "x")], [("a", JSON.str "y")]] : List Row) ≠ []
    ∧ (print_table ["a"] [[("a", JSON.str "x")], [("a", JSON.str "y")]] true none none).headersOut
        = " " :: ["a"] :=
  ⟨by simp,
    (print_table_inplace_mutation ["a"] [[("a", JSON.str "x")], [("a", JSON.str "y")]]
      none none (by simp)).1⟩

/-- C8 (amended): with `dumpFile` given and non-empty rows, the unwrapped
(pre-render) row collection is serialised in full — same number of rows,
no wrapping — and the effect is reported; but the rows are dumped as the
renderer left them: with `counter` true each dumped row also carries the
renderer-added `' '` index key (the dicts are mutated before the dump),
and with `sortKey` set the dumped order is the sorted order.  Only with
`counter` false (and no sort) is the dump exactly the caller's original
collection. -/
theorem print_table_dump (headers : List String) (data : List Row) (counter : Bool)
    (sort_key : Option String) (f : String) (hne : data ≠ []) :
    (print_table headers data counter sort_key (some f)).dumped
        = some ((renderProcessed data counter sort_key).map (fun p => p.2))
    ∧ ((renderProcessed data counter sort_key).map (fun p => p.2)).length = data.length
    ∧ (print_table headers data counter sort_key (some f)).reported = true
    ∧ (counter = false →
        ((renderProcessed data counter sort_key).map (fun p => p.2)).Perm data)
    ∧ (counter = false → sort_key = none →
        (renderProcessed data counter sort_key).map (fun p => p.2) = data)
    ∧ (counter = true →
        ∀ r' ∈ (renderProcessed data counter sort_key).map (fun p => p.2),
          ∃ r ∈ data, ∃ k, r' = dictSet r " " (.str (pyStrNat k))) := by
  have hne0 : ¬ data.length = 0 := by
    simpa using hne
  refine ⟨?_, ?_, ?_, ?_, ?_, ?_⟩
  · simp [print_table, hne0]
  · simp [renderProcessed_length]
  · simp [print_table, hne0]
  · intro hc
    subst hc
    have h := (renderTagged_perm data sort_key).map Prod.snd
    rw [List.enum_map_snd] at h
    simpa [renderProcessed] using h
  · intro hc hsk
    subst hc
    subst hsk
    have : renderProcessed data false none = data.enum := rfl
    rw [this, List.enum_map_snd]
  · intro hc r' hr'
    subst hc
    obtain ⟨p, hpmem, hpr⟩ := List.mem_map.mp hr'
    obtain ⟨j, hjN, hjt, hpform⟩ := renderProcessed_mem data sort_key p hpmem
    refine ⟨((renderTagged data sort_key).get ⟨j, hjt⟩).2, ?_, j + 1, ?_⟩
    · have hmem : (renderTagged data sort_key).get ⟨j, hjt⟩ ∈ renderTagged data sort_key :=
        List.get_mem _ _ _
      have hmem' : (renderTagged data sort_key).get ⟨j, hjt⟩ ∈ data.enum :=
        ((renderTagged_perm data sort_key).mem_iff).mp hmem
      have hsnd : ((renderTagged data sort_key).get ⟨j, hjt⟩).2 ∈ data.enum.map Prod.snd :=
        List.mem_map.mpr ⟨_, hmem', rfl⟩
      rwa [List.enum_map_snd] at hsnd
    · rw [← hpr, hpform]

theorem print_table_dump_witness :
    ([[("a", JSON.str "x")]] : List Row) ≠ []
    ∧ (print_table ["a"] [[("a", JSON.str "x")]] false none (some "out")).dumped
        = some ((renderProcessed [[("a", JSON.str "x")]] false none).map (fun p => p.2)) :=
  ⟨by simp, (print_table_dump ["a"] [[("a", JSON.str "x")]] false none "out" (by simp)).1⟩

/-- C8 counterexample: a one-row render with the default `counter = true`
dumps the row extended with the renderer-added `' '` counter key — not
exactly the row the caller passed in. -/
theorem print_table_dump_counter_key :
    (print_table ["a"] [[("a", JSON.str "x")]] true none (some "out")).dumped
      = some [[("a", JSON.str "x"), (" ", JSON.str "1")]]
    ∧ ¬ (print_table ["a"] [[("a", JSON.str "x")]] true none (some "out")).dumped
        = some [[("a", JSON.str "x")]] := by
  constructor
  · rfl
  · intro h
    have h1 : (print_table ["a"] [[("a", JSON.str "x")]] true none (some "out")).dumped
        = some [[("a", JSON.str "x"), (" ", JSON.str "1")]] := rfl
    have h2 : ([[("a", JSON.str "x"), (" ", JSON.str "1")]] : List Row)
        = [[("a", JSON.str "x")]] :=
      Option.some.inj (h1.symm.trans h)
    have h3 := congrArg (fun l : List Row => (l.headD []).length) h2
    simp at h3
